import Mathlib

/-!
Verification development for the term-chat repository (Rust).

We build a shallow embedding of the wire codec (`src/common/src/codec.rs`),
the secure channel (`src/common/src/secure.rs`), the shared message types
(`src/common/src/lib.rs`) and the server's connection engine
(`src/server/src/server.rs`), and prove the specification's testable
properties about it.

Bytes are modelled as natural numbers; all byte-producing functions emit
values below 256 for in-range inputs.  Library primitives that live outside
the repository (serde_cbor, lz4, p521 ECDH, HKDF, AES-GCM) are modelled from
the specification's description of them, as noted on each definition; the
control flow around them is translated directly from the Rust sources.
-/

namespace TermChat

/-! ## Byte-level helpers -/

/-- Big-endian 4-byte encoding of a length, as written by
`tokio_util::codec::LengthDelimitedCodec` (default 4-byte big-endian length
field) in front of every frame. -/
def be32 (n : Nat) : List Nat :=
  [n / 16777216 % 256, n / 65536 % 256, n / 256 % 256, n % 256]

/-- Read a big-endian 4-byte length from the head of a byte stream. -/
def readBE32 : List Nat → Option (Nat × List Nat)
  | a :: b :: c :: d :: rest => some (((a * 256 + b) * 256 + c) * 256 + d, rest)
  | _ => none

/-- Little-endian 4-byte encoding of the uncompressed size, as prepended by
`lz4::block::compress(_, _, true)`. -/
def le32 (n : Nat) : List Nat :=
  [n % 256, n / 256 % 256, n / 65536 % 256, n / 16777216 % 256]

/-- Read the little-endian size prefix of an lz4 block. -/
def readLE32 : List Nat → Option (Nat × List Nat)
  | a :: b :: c :: d :: rest => some (((d * 256 + c) * 256 + b) * 256 + a, rest)
  | _ => none

/-- Split off exactly `n` leading bytes, failing on a truncated input. -/
def splitN : Nat → List α → Option (List α × List α)
  | 0, bs => some ([], bs)
  | _ + 1, [] => none
  | n + 1, b :: bs => (splitN n bs).map (fun p => (b :: p.1, p.2))

/-! ## CBOR model

`serde_cbor` (used by both codecs in `src/common/src/codec.rs`) writes the
standard CBOR head: the major type in the top three bits and either an
immediate argument (below 24) or a 1/2/4/8-byte big-endian argument selected
by additional information 24–27, in shortest form.  We model the head and the
items the repository's message types need: unsigned integers (major 0), text
strings (major 3, one model byte per unicode scalar value), arrays (major 4)
and maps (major 5). -/

/-- Shortest-form CBOR head for major type `major` and argument `n`. -/
def encHead (major n : Nat) : List Nat :=
  if n < 24 then [32 * major + n]
  else if n < 256 then [32 * major + 24, n]
  else if n < 65536 then [32 * major + 25, n / 256, n % 256]
  else if n < 4294967296 then
    [32 * major + 26, n / 16777216 % 256, n / 65536 % 256, n / 256 % 256, n % 256]
  else
    [32 * major + 27, n / 72057594037927936 % 256, n / 281474976710656 % 256,
      n / 1099511627776 % 256, n / 4294967296 % 256, n / 16777216 % 256,
      n / 65536 % 256, n / 256 % 256, n % 256]

/-- Parse a CBOR head, returning the major type, the argument value and the
remaining bytes. -/
def decHead : List Nat → Option (Nat × Nat × List Nat)
  | [] => none
  | b :: bs =>
    let major := b / 32
    let ai := b % 32
    if ai < 24 then some (major, ai, bs)
    else if ai = 24 then
      match bs with
      | x :: r => some (major, x, r)
      | [] => none
    else if ai = 25 then
      match bs with
      | x :: y :: r => some (major, x * 256 + y, r)
      | _ => none
    else if ai = 26 then
      match bs with
      | x :: y :: z :: w :: r => some (major, ((x * 256 + y) * 256 + z) * 256 + w, r)
      | _ => none
    else if ai = 27 then
      match bs with
      | x1 :: x2 :: x3 :: x4 :: x5 :: x6 :: x7 :: x8 :: r =>
        some (major,
          ((((((x1 * 256 + x2) * 256 + x3) * 256 + x4) * 256 + x5) * 256 + x6) * 256 + x7)
            * 256 + x8, r)
      | _ => none
    else none

/-- Model bytes of a text string: one model byte per unicode scalar value. -/
def strBytes (s : String) : List Nat :=
  s.data.map Char.toNat

/-- CBOR text item (major type 3). -/
def encStr (s : String) : List Nat :=
  encHead 3 s.length ++ strBytes s

/-- Parse a CBOR text item. -/
def decStr (bs : List Nat) : Option (String × List Nat) := do
  let (major, n, rest) ← decHead bs
  if major = 3 then
    let (chars, rest1) ← splitN n rest
    some (String.mk (chars.map Char.ofNat), rest1)
  else none

/-! ## Message types (`src/common/src/lib.rs`)

`ClientId` holds a self-declared name and the connection's peer socket
address; the address is modelled by its display string.  `ClientMessage` is
the client-to-server protocol.  `ServerMessage` carries `AcceptJoin` and
`ReceiveMessage` from `src/common/src/lib.rs`; the `ClientListUpdate` variant
is modelled from the spec (§3 `ServerMessage`): it is constructed by
`src/server/src/server.rs` but its declaration is not among the sources under
`src/` (the `lib.rs` present there is the superseded variant without it). -/

structure ClientId where
  name : String
  addr : String
deriving DecidableEq, Repr

inductive ClientMessage
  | joinRequest (name : String)
  | sendMessage (message : String)
deriving DecidableEq, Repr

inductive ServerMessage
  | acceptJoin
  | receiveMessage (sender : ClientId) (message : String)
  | clientListUpdate (clients : List ClientId)
deriving DecidableEq, Repr

/-! ## serde_cbor encodings of the message types

Modelled from serde's externally-tagged enum representation over the CBOR
data model: a unit variant is its name as a text item, a struct variant is a
one-entry map from the variant name to the map of its fields, and a struct is
the map of its fields in declaration order. -/

/-- Parse a text item and require it to be the given tag. -/
def expectStr (tag : String) (bs : List Nat) : Option (List Nat) := do
  let (s, rest) ← decStr bs
  if s = tag then some rest else none

/-- serde_cbor encoding of `ClientId`: `{ name, addr }`. -/
def encClientId (c : ClientId) : List Nat :=
  encHead 5 2 ++ encStr "name" ++ encStr c.name ++ encStr "addr" ++ encStr c.addr

def decClientId (bs : List Nat) : Option (ClientId × List Nat) := do
  let (major, n, rest) ← decHead bs
  if major = 5 ∧ n = 2 then do
    let rest1 ← expectStr "name" rest
    let (name, rest2) ← decStr rest1
    let rest3 ← expectStr "addr" rest2
    let (addr, rest4) ← decStr rest3
    some (⟨name, addr⟩, rest4)
  else none

/-- Well-sized strings: what fits comfortably inside the codec's 4-byte
length-delimited frames (`LengthDelimitedCodec` caps frames well below
2^32 bytes). -/
def strWf (s : String) : Prop := s.length < 65536

instance (s : String) : Decidable (strWf s) := by
  unfold strWf
  infer_instance

def ClientId.wf (c : ClientId) : Prop := strWf c.name ∧ strWf c.addr

instance (c : ClientId) : Decidable c.wf := by
  unfold ClientId.wf
  infer_instance

/-- Concatenated encodings of a list of `ClientId`s (CBOR array elements). -/
def encClientIdList : List ClientId → List Nat
  | [] => []
  | c :: cs => encClientId c ++ encClientIdList cs

/-- Parse `n` consecutive `ClientId` array elements. -/
def decClientIdList : Nat → List Nat → Option (List ClientId × List Nat)
  | 0, bs => some ([], bs)
  | n + 1, bs => do
    let (c, rest) ← decClientId bs
    let (cs, rest1) ← decClientIdList n rest
    some (c :: cs, rest1)

/-- serde_cbor encoding of `ClientMessage` (externally tagged). -/
def encClientMessage : ClientMessage → List Nat
  | .joinRequest name =>
    encHead 5 1 ++ encStr "JoinRequest" ++ encHead 5 1 ++ encStr "name" ++ encStr name
  | .sendMessage message =>
    encHead 5 1 ++ encStr "SendMessage" ++ encHead 5 1 ++ encStr "message" ++ encStr message

def decClientMessage (bs : List Nat) : Option (ClientMessage × List Nat) := do
  let (major, n, rest) ← decHead bs
  if major = 5 ∧ n = 1 then do
    let (tag, rest1) ← decStr rest
    let (major1, n1, rest2) ← decHead rest1
    if major1 = 5 ∧ n1 = 1 then
      if tag = "JoinRequest" then do
        let rest3 ← expectStr "name" rest2
        let (name, rest4) ← decStr rest3
        some (.joinRequest name, rest4)
      else if tag = "SendMessage" then do
        let rest3 ← expectStr "message" rest2
        let (message, rest4) ← decStr rest3
        some (.sendMessage message, rest4)
      else none
    else none
  else none

def ClientMessage.wf : ClientMessage → Prop
  | .joinRequest name => strWf name
  | .sendMessage message => strWf message

instance (m : ClientMessage) : Decidable m.wf := by
  unfold ClientMessage.wf
  cases m <;> infer_instance

/-- serde_cbor encoding of `ServerMessage` (externally tagged; the unit
variant `AcceptJoin` is its bare name as a text item). -/
def encServerMessage : ServerMessage → List Nat
  | .acceptJoin => encStr "AcceptJoin"
  | .receiveMessage sender message =>
    encHead 5 1 ++ encStr "ReceiveMessage" ++ encHead 5 2 ++
      encStr "sender" ++ encClientId sender ++ encStr "message" ++ encStr message
  | .clientListUpdate clients =>
    encHead 5 1 ++ encStr "ClientListUpdate" ++ encHead 5 1 ++ encStr "clients" ++
      encHead 4 clients.length ++ encClientIdList clients

def decServerMessage (bs : List Nat) : Option (ServerMessage × List Nat) := do
  let (major, n, rest) ← decHead bs
  if major = 3 then do
    let (tag, rest1) ← splitN n rest
    if String.mk (tag.map Char.ofNat) = "AcceptJoin" then some (.acceptJoin, rest1)
    else none
  else if major = 5 ∧ n = 1 then do
    let (tag, rest1) ← decStr rest
    if tag = "ReceiveMessage" then do
      let (major1, n1, rest2) ← decHead rest1
      if major1 = 5 ∧ n1 = 2 then do
        let rest3 ← expectStr "sender" rest2
        let (sender, rest4) ← decClientId rest3
        let rest5 ← expectStr "message" rest4
        let (message, rest6) ← decStr rest5
        some (.receiveMessage sender message, rest6)
      else none
    else if tag = "ClientListUpdate" then do
      let (major1, n1, rest2) ← decHead rest1
      if major1 = 5 ∧ n1 = 1 then do
        let rest3 ← expectStr "clients" rest2
        let (major2, len, rest4) ← decHead rest3
        if major2 = 4 then do
          let (clients, rest5) ← decClientIdList len rest4
          some (.clientListUpdate clients, rest5)
        else none
      else none
    else none
  else none

def ServerMessage.wf : ServerMessage → Prop
  | .acceptJoin => True
  | .receiveMessage sender message => sender.wf ∧ strWf message
  | .clientListUpdate clients => clients.length < 256 ∧ ∀ c ∈ clients, c.wf

instance (m : ServerMessage) : Decidable m.wf := by
  unfold ServerMessage.wf
  cases m with
  | acceptJoin => infer_instance
  | receiveMessage sender message => infer_instance
  | clientListUpdate clients => exact instDecidableAnd

/-! ## lz4 block compression

Modelled from the spec (§4.1: "Compression is a pure, reversible transform
applied independently of serialization"; the codec calls
`lz4::block::compress(.., DEFAULT, true)` / `lz4::block::decompress(.., None)`,
a library outside `src/`).  The model emits the input as a single
literal-only LZ4 sequence — token byte with the literal count in the high
nibble, 255-extension length bytes, then the literals — behind the
little-endian 4-byte uncompressed-size prefix that the `true` flag prepends
and that `decompress(.., None)` reads back.  Match sequences, which a real
compressor may also emit, are not modelled. -/

/-- LZ4 length extension: 255-bytes then a final remainder byte below 255. -/
def lz4LenExt (n : Nat) : List Nat :=
  if n < 255 then [n] else 255 :: lz4LenExt (n - 255)
termination_by n
decreasing_by omega

/-- Read an LZ4 length extension. -/
def lz4ReadLen : List Nat → Option (Nat × List Nat)
  | [] => none
  | x :: r =>
    if x = 255 then (lz4ReadLen r).map (fun p => (255 + p.1, p.2))
    else some (x, r)

/-- Compress a block as one literal-only LZ4 sequence. -/
def lz4CompressBlock (b : List Nat) : List Nat :=
  if b.length < 15 then (16 * b.length) :: b
  else 240 :: (lz4LenExt (b.length - 15) ++ b)

/-- Decompress a literal-only LZ4 sequence, requiring the block to be fully
consumed. -/
def lz4DecompressBlock (bs : List Nat) : Option (List Nat) :=
  match bs with
  | [] => none
  | tok :: r =>
    let lit := tok / 16
    if lit < 15 then
      match splitN lit r with
      | some (xs, []) => some xs
      | _ => none
    else
      match lz4ReadLen r with
      | none => none
      | some (ext, r1) =>
        match splitN (15 + ext) r1 with
        | some (xs, []) => some xs
        | _ => none

/-- `lz4::block::compress(.., DEFAULT, true)`: size-prefixed compressed
block. -/
def lz4Compress (b : List Nat) : List Nat :=
  le32 b.length ++ lz4CompressBlock b

/-- `lz4::block::decompress(.., None)`: read the prepended size, decompress,
and require the output to have the advertised size. -/
def lz4Decompress (bs : List Nat) : Option (List Nat) := do
  let (size, rest) ← readLE32 bs
  let out ← lz4DecompressBlock rest
  if out.length = size then some out else none

/-! ## Framing and the two record codecs (`src/common/src/codec.rs`) -/

/-- One frame as written by `LengthDelimitedCodec`: 4-byte big-endian length
prefix followed by the payload bytes. -/
def frameEncode (payload : List Nat) : List Nat :=
  be32 payload.length ++ payload

/-- Read one frame: length prefix, then exactly that many payload bytes. -/
def frameDecode (bs : List Nat) : Option (List Nat × List Nat) := do
  let (n, rest) ← readBE32 bs
  splitN n rest

/-- serde_cbor deserialization of a full slice (`serde_cbor::from_slice`
rejects trailing bytes). -/
def fromSliceClientMessage (bs : List Nat) : Option ClientMessage :=
  match decClientMessage bs with
  | some (m, []) => some m
  | _ => none

def fromSliceServerMessage (bs : List Nat) : Option ServerMessage :=
  match decServerMessage bs with
  | some (m, []) => some m
  | _ => none

/-- `CompressedCborStream::start_send` (codec.rs lines 81–88): CBOR-serialize
the item, lz4-compress the bytes, hand them to the length-delimited framer. -/
def compressedSendClient (m : ClientMessage) : List Nat :=
  frameEncode (lz4Compress (encClientMessage m))

/-- `CompressedCborStream::poll_next` (codec.rs lines 39–54) on one incoming
frame: deframe, decompress, CBOR-deserialize; what follows the frame is
returned as the rest of the stream. -/
def compressedRecvClient (bs : List Nat) : Option (ClientMessage × List Nat) := do
  let (payload, rest) ← frameDecode bs
  let raw ← lz4Decompress payload
  let m ← fromSliceClientMessage raw
  some (m, rest)

def compressedSendServer (m : ServerMessage) : List Nat :=
  frameEncode (lz4Compress (encServerMessage m))

def compressedRecvServer (bs : List Nat) : Option (ServerMessage × List Nat) := do
  let (payload, rest) ← frameDecode bs
  let raw ← lz4Decompress payload
  let m ← fromSliceServerMessage raw
  some (m, rest)

/-- `CborStream::start_send` (codec.rs lines 159–164): CBOR-serialize, frame,
no compression. -/
def plainSendClient (m : ClientMessage) : List Nat :=
  frameEncode (encClientMessage m)

/-- `CborStream::poll_next` (codec.rs lines 118–133). -/
def plainRecvClient (bs : List Nat) : Option (ClientMessage × List Nat) := do
  let (payload, rest) ← frameDecode bs
  let m ← fromSliceClientMessage payload
  some (m, rest)

def plainSendServer (m : ServerMessage) : List Nat :=
  frameEncode (encServerMessage m)

def plainRecvServer (bs : List Nat) : Option (ServerMessage × List Nat) := do
  let (payload, rest) ← frameDecode bs
  let m ← fromSliceServerMessage payload
  some (m, rest)

/-! ## Secure channel handshake (`src/common/src/secure.rs`)

The elliptic-curve Diffie-Hellman primitive (`p521::ecdh`) and HKDF-SHA512
live outside `src/`; they are modelled from the spec (§4.2, glossary).  The
cyclic-group structure of ECDH is rendered as modular exponentiation of a
fixed generator by the secret scalar, modulo the p521 Mersenne prime. -/

def dhModulus : Nat := 2 ^ 521 - 1

def dhGenerator : Nat := 3

/-- `EphemeralSecret::public_key()`: the group element generated by the
secret scalar. -/
def dhPublicKey (secret : Nat) : Nat :=
  dhGenerator ^ secret % dhModulus

/-- `EphemeralSecret::diffie_hellman(peer)`: combine the own secret scalar
with the peer's public element. -/
def diffieHellman (secret peerPublic : Nat) : Nat :=
  peerPublic ^ secret % dhModulus

/-- `SharedSecret::raw_secret_bytes()`: the 66-byte big-endian p521 field
element. -/
def rawSecretBytes (shared : Nat) : List Nat :=
  (List.range 66).map (fun i => shared / 256 ^ (65 - i) % 256)

/-- The fixed protocol context string passed to `Hkdf::expand`
(secure.rs line 80). -/
def handshakeContext : List Nat := strBytes "handshake context"

/-- secure.rs lines 78–82: derive the 32-byte AES-256-GCM key by applying
the key-derivation function to the raw shared-secret bytes with the fixed
context string.  `kdf ikm info` stands for HKDF-SHA512 extract-and-expand
with salt `None` (a library outside `src/`), giving one output byte per
index; the theorems quantify over it, so key agreement holds for any such
function. -/
def derivedKey (kdf : List Nat → List Nat → Nat → Nat) (secret peerPublic : Nat) :
    List Nat :=
  (List.range 32).map (kdf (rawSecretBytes (diffieHellman secret peerPublic)) handshakeContext)

/-! ## AEAD model and the secure stream (`src/common/src/secure.rs`)

AES-256-GCM is a library outside `src/`; modelled from the spec (glossary:
AEAD "encrypts and authenticates in one operation"): the ciphertext is the
plaintext followed by an authentication tag over key, nonce and plaintext,
and decryption recomputes and checks the tag before returning the
plaintext.  The tag is a polynomial hash — enough structure for the
authentication-failure behaviour the claims are about, not a model of AES
itself. -/

def aeadTag (key : Nat) (nonce pt : List Nat) : Nat :=
  (nonce ++ pt).foldl (fun a b => (a * 131 + b + 1) % 65521) (key % 65521 + 7)

def aeadEncrypt (key : Nat) (nonce pt : List Nat) : List Nat :=
  pt ++ [aeadTag key nonce pt]

def aeadDecrypt (key : Nat) (nonce ct : List Nat) : Option (List Nat) :=
  if h : ct = [] then none
  else
    let pt := ct.dropLast
    if ct.getLast h = aeadTag key nonce pt then some pt else none

/-- The wire envelope (`Message`, secure.rs lines 16–20). -/
inductive SecMessage
  | handshake (publicKey : Nat)
  | encrypted (data : List Nat) (nonce : List Nat)
deriving DecidableEq, Repr

/-- The payloads `std::io::Error` carries on this path: secure.rs line 107
wraps an `AlreadyHandshaked` value via `io::Error::other`, and line 127
wraps a CBOR deserialization error with `ErrorKind::InvalidData`. -/
inductive IoErrorModel
  | otherAlreadyHandshaked (handshakeMessage : SecMessage)
  | invalidDataCbor
deriving DecidableEq, Repr

/-- `SecureStreamError` (secure.rs lines 22–34). -/
inductive SecureStreamError
  | expectedHandshake (messageReceived : SecMessage)
  | alreadyHandshaked (handshakeMessage : SecMessage)
  | failedDecryption (bytes : List Nat)
  | failedEncryption (bytes : List Nat)
  | io (error : IoErrorModel)
deriving DecidableEq, Repr

def SecureStreamError.isAlreadyHandshaked : SecureStreamError → Bool
  | .alreadyHandshaked _ => true
  | _ => false

/-- Whether a receive result is the `AlreadyHandshaked` error variant. -/
def recvIsAlreadyHandshaked (r : Except SecureStreamError ClientMessage) : Bool :=
  match r with
  | .error e => e.isAlreadyHandshaked
  | .ok _ => false

/-- `SecureStream::poll_next` (secure.rs lines 98–137) on one decoded
envelope of an established channel carrying `ClientMessage` items: a
`Handshake` is rejected — the `AlreadyHandshaked` value is wrapped by
`io::Error::other` and converted back into the error type through its `Io`
variant; an `Encrypted` envelope is AEAD-decrypted with the received nonce
and only then CBOR-deserialized. -/
def securePollNext (key : Nat) (msg : SecMessage) :
    Except SecureStreamError ClientMessage :=
  match msg with
  | .handshake pk =>
    .error (.io (.otherAlreadyHandshaked (.handshake pk)))
  | .encrypted data nonce =>
    match aeadDecrypt key nonce data with
    | none => .error (.failedDecryption data)
    | some plain =>
      match fromSliceClientMessage plain with
      | none => .error (.io .invalidDataCbor)
      | some item => .ok item

/-- `SecureStream::start_send` (secure.rs lines 169–194): serialize, encrypt
under a fresh random nonce, emit the `Encrypted` envelope. -/
def secureStartSend (key : Nat) (nonce : List Nat) (m : ClientMessage) : SecMessage :=
  .encrypted (aeadEncrypt key nonce (encClientMessage m)) nonce

/-! ## Server connection engine (`src/server/src/server.rs`)

The server splits each accepted socket with `split_message_stream`
(`src/common/src/lib.rs` lines 15–17): a plain `LengthDelimitedCodec` framed
transport with no `SecureStream`, no handshake and no compression; each
frame's bytes are fed straight to `serde_cbor::from_slice::<ClientMessage>`.
The handler is modelled as a function of the sequence of results its read
half produces. -/

/-- One poll of the framed read half (`read_msg.next().await`): `ok bytes`
is `Some(Ok(frame))`, `ioErr` is `Some(Err(_))`; the end of the input list
is `None` (stream closed). -/
inductive ReadItem
  | ok (bytes : List Nat)
  | ioErr
deriving DecidableEq, Repr

/-- The observable effects of a connection handler, in program order.
`spawnBroadcast` is a `tokio::task::spawn(broadcast ..)` of the given
serialized payload. -/
inductive SrvAction
  | insert (id : ClientId)
  | sendAccept (id : ClientId)
  | spawnBroadcast (payload : List Nat)
  | remove (id : ClientId)
  | logError
  | logWarn
deriving DecidableEq, Repr

/-- The client registry (`papaya::HashMap<ClientId, Arc<Client>>`): identity
to connection record, the record abstracted to the token of its write
half. -/
abbrev Registry := List (ClientId × Nat)

/-- `HashMap::remove(&client_id)`: drop the record stored under the
identity. -/
def regRemove (reg : Registry) (id : ClientId) : Registry :=
  match reg with
  | [] => []
  | p :: rest => if p.1 = id then regRemove rest id else p :: regRemove rest id

/-- `HashMap::insert(client_id, record)`: store the record under the
identity, overwriting any pre-existing identical key (last writer wins). -/
def regInsert (reg : Registry) (id : ClientId) (tok : Nat) : Registry :=
  regRemove reg id ++ [(id, tok)]

/-- `HashMap::get(&client_id)`. -/
def regFind (reg : Registry) (id : ClientId) : Option Nat :=
  match reg with
  | [] => none
  | p :: rest => if p.1 = id then some p.2 else regFind rest id

/-- `clients.keys()`: the registered identities. -/
def regKeys (reg : Registry) : List ClientId :=
  reg.map (fun p => p.1)

/-- The pre-join loop (server.rs lines 92–148): read frames until a
`JoinRequest` arrives.  `None` and `Some(Err(_))` from the stream and a
CBOR-deserialization failure each log an error and return (the handler
ends without joining).  A non-join message is logged and skipped.  On
`JoinRequest{name}` the handler builds `ClientId{name, addr}`, inserts its
record (last writer wins), serializes `AcceptJoin` (total, always `Ok`) and
sends it to the just-inserted record, then leaves the loop with the
identity and the unread remainder of the stream. -/
def preJoinLoop (reg : Registry) (tok : Nat) (addr : String) :
    List ReadItem → Registry × List SrvAction × Option (ClientId × List ReadItem)
  | [] => (reg, [.logError], none)
  | .ioErr :: _ => (reg, [.logError], none)
  | .ok bytes :: rest =>
    match fromSliceClientMessage bytes with
    | none => (reg, [.logError], none)
    | some (.joinRequest name) =>
      let id : ClientId := ⟨name, addr⟩
      (regInsert reg id tok, [.insert id, .sendAccept id], some (id, rest))
    | some (.sendMessage _) =>
      let next := preJoinLoop reg tok addr rest
      (next.1, .logWarn :: next.2.1, next.2.2)

/-- The joined read loop (server.rs lines 166–209).  `Some(Err(_))` and a
CBOR-deserialization failure log an error and `continue`; a repeated
`JoinRequest` logs a warning and is ignored; `SendMessage{message}` spawns a
broadcast of `ReceiveMessage{sender: id, message}`; `None` (stream closed)
logs an error and breaks. -/
def joinedLoop (id : ClientId) : List ReadItem → List SrvAction
  | [] => [.logError]
  | .ioErr :: rest => .logError :: joinedLoop id rest
  | .ok bytes :: rest =>
    match fromSliceClientMessage bytes with
    | none => .logError :: joinedLoop id rest
    | some (.joinRequest _) => .logWarn :: joinedLoop id rest
    | some (.sendMessage message) =>
      .spawnBroadcast (encServerMessage (.receiveMessage id message)) :: joinedLoop id rest

/-- `Server::handle_new_connection` (server.rs lines 87–227): pre-join loop,
then on success a spawned broadcast of `ClientListUpdate` with the current
key set, the joined read loop, and on exit removal of the identity followed
by a spawned broadcast of the updated `ClientListUpdate`.  The source's
branches for `serde_cbor::to_vec` failure on a `ServerMessage` (lines
153–159 and 216–222, early `return`s) are unreachable because that
serialization is total on these types, and are therefore not represented. -/
def handleNewConnection (reg : Registry) (tok : Nat) (addr : String)
    (items : List ReadItem) : Registry × List SrvAction :=
  match preJoinLoop reg tok addr items with
  | (reg1, acts, none) => (reg1, acts)
  | (reg1, acts, some (id, rest)) =>
    let joinUpdate := encServerMessage (.clientListUpdate (regKeys reg1))
    let loopActs := joinedLoop id rest
    let reg2 := regRemove reg1 id
    let exitUpdate := encServerMessage (.clientListUpdate (regKeys reg2))
    (reg2, acts ++ [.spawnBroadcast joinUpdate] ++ loopActs ++
      [.remove id, .spawnBroadcast exitUpdate])

/-- Whether an action is a registry removal. -/
def SrvAction.isRemove : SrvAction → Bool
  | .remove _ => true
  | _ => false

/-- One delivery attempt of a broadcast. -/
structure SendAttempt where
  recipient : ClientId
  payload : List Nat
  success : Bool
deriving DecidableEq, Repr

/-- `Server::broadcast` (server.rs lines 229–247): snapshot the registry
values, then attempt one send per snapshotted client; `sendOk` gives each
recipient's outcome (a failed send is logged and affects no other
recipient). -/
def broadcast (reg : Registry) (sendOk : ClientId → Bool) (payload : List Nat) :
    List SendAttempt :=
  reg.map (fun p => ⟨p.1, payload, sendOk p.1⟩)

/-- The `SendMessage` case of the joined loop (server.rs lines 189–207)
followed by the spawned `Server::broadcast`: the delivery attempts one
`SendMessage{message}` from `sender` produces against the registry state the
broadcast task snapshots. -/
def sendMessageDeliveries (reg : Registry) (sendOk : ClientId → Bool)
    (sender : ClientId) (message : String) : List SendAttempt :=
  broadcast reg sendOk (encServerMessage (.receiveMessage sender message))

/-- The registry resulting from a sequence of join insertions
(server.rs line 124, once per joining connection). -/
def regAfterJoins (joins : List (ClientId × Nat)) : Registry :=
  joins.foldl (fun r p => regInsert r p.1 p.2) []

/-- A registry mutation another connection's handler may perform
concurrently. -/
inductive RegStep
  | insert (id : ClientId) (tok : Nat)
  | remove (id : ClientId)
deriving DecidableEq, Repr

def regApply (reg : Registry) : RegStep → Registry
  | .insert id tok => regInsert reg id tok
  | .remove id => regRemove reg id

def regRun (reg : Registry) (steps : List RegStep) : Registry :=
  steps.foldl regApply reg

/-- server.rs lines 123–135: the handler inserts its `ClientRecord` into the
shared concurrent registry and then looks the identity up again (to `send`
`AcceptJoin` through `.get(&client_id).unwrap()`); `interleaved` is what
other handler tasks execute on the registry between the insert and the
get. -/
def lookupAfterInsert (reg : Registry) (id : ClientId) (tok : Nat)
    (interleaved : List RegStep) : Option Nat :=
  regFind (regRun (regInsert reg id tok) interleaved) id

/-! ## Acceptor (`src/server/src/server.rs` lines 56–85)

Per listener, `run_loop` accepts a connection, pushes the spawned handler
into a `FuturesUnordered`, then pops completed handlers while
`futures.len() >= max_concurrency` before accepting again.  The model
records the in-flight count observed immediately after each accept.  With
`max_concurrency = 0` the drain condition `len >= 0` always holds, and once
the set is empty `futures.next()` keeps yielding `None` immediately, so the
loop never accepts again. -/

def acceptorRun (maxConcurrency : Nat) : Nat → Nat → List Nat
  | 0, _ => []
  | arrivals + 1, inflight =>
    let peak := inflight + 1
    if maxConcurrency = 0 then [peak]
    else peak :: acceptorRun maxConcurrency arrivals (min peak (maxConcurrency - 1))

/-- In-flight handler counts observed after each accept, starting idle. -/
def acceptorPeaks (maxConcurrency arrivals : Nat) : List Nat :=
  acceptorRun maxConcurrency arrivals 0

/-! ## Theorems: codec round-trips and supporting lemmas -/

theorem readBE32_be32 (n : Nat) (rest : List Nat) (h : n < 4294967296) :
    readBE32 (be32 n ++ rest) = some (n, rest) := by
  simp only [be32, readBE32, List.cons_append, List.nil_append]
  have e : ((n / 16777216 % 256 * 256 + n / 65536 % 256) * 256 + n / 256 % 256) * 256 + n % 256
      = n := by omega
  rw [e]

theorem readLE32_le32 (n : Nat) (rest : List Nat) (h : n < 4294967296) :
    readLE32 (le32 n ++ rest) = some (n, rest) := by
  simp only [le32, readLE32, List.cons_append, List.nil_append]
  have e : ((n / 16777216 % 256 * 256 + n / 65536 % 256) * 256 + n / 256 % 256) * 256 + n % 256
      = n := by omega
  rw [e]

theorem splitN_append (xs rest : List α) :
    splitN xs.length (xs ++ rest) = some (xs, rest) := by
  induction xs with
  | nil => rfl
  | cons x xs ih => simp [splitN, ih]

theorem decHead_encHead (major n : Nat) (rest : List Nat)
    (hn : n < 18446744073709551616) :
    decHead (encHead major n ++ rest) = some (major, n, rest) := by
  unfold encHead
  split
  · next h =>
    simp only [List.cons_append, List.nil_append, decHead]
    have h1 : (32 * major + n) / 32 = major := by omega
    have h2 : (32 * major + n) % 32 = n := by omega
    simp [h1, h2, h]
  · split
    · next h1 h2 =>
      simp only [List.cons_append, List.nil_append, decHead]
      have e1 : (32 * major + 24) / 32 = major := by omega
      have e2 : (32 * major + 24) % 32 = 24 := by omega
      simp [e1, e2]
    · split
      · next h1 h2 h3 =>
        simp only [List.cons_append, List.nil_append, decHead]
        have e1 : (32 * major + 25) / 32 = major := by omega
        have e2 : (32 * major + 25) % 32 = 25 := by omega
        simp only [e1, e2]
        norm_num
        omega
      · split
        · next h1 h2 h3 h4 =>
          simp only [List.cons_append, List.nil_append, decHead]
          have e1 : (32 * major + 26) / 32 = major := by omega
          have e2 : (32 * major + 26) % 32 = 26 := by omega
          simp only [e1, e2]
          norm_num
          omega
        · next h1 h2 h3 h4 =>
          simp only [List.cons_append, List.nil_append, decHead]
          have e1 : (32 * major + 27) / 32 = major := by omega
          have e2 : (32 * major + 27) % 32 = 27 := by omega
          simp only [e1, e2]
          norm_num
          omega

theorem decStr_encStr (s : String) (rest : List Nat)
    (hs : s.length < 18446744073709551616) :
    decStr (encStr s ++ rest) = some (s, rest) := by
  simp only [decStr, encStr, List.append_assoc]
  rw [decHead_encHead 3 s.length _ hs]
  have hlen : s.length = (strBytes s).length := by
    simp only [strBytes, List.length_map]
    rfl
  simp only [Option.bind_eq_bind, Option.some_bind, if_pos rfl]
  rw [hlen, splitN_append]
  simp only [Option.some_bind]
  have hmap : (strBytes s).map Char.ofNat = s.data := by
    simp only [strBytes, List.map_map]
    have : (Char.ofNat ∘ Char.toNat) = id := by
      funext c
      exact Char.ofNat_toNat c
    rw [this, List.map_id]
  rw [hmap]
  rfl

theorem encHead_length_le (major n : Nat) : (encHead major n).length ≤ 9 := by
  unfold encHead
  split
  · simp
  · split
    · simp
    · split
      · simp
      · split <;> simp

theorem strBytes_length (s : String) : (strBytes s).length = s.length := by
  simp only [strBytes, List.length_map]
  rfl

theorem encStr_length_le (s : String) : (encStr s).length ≤ 9 + s.length := by
  have h1 := encHead_length_le 3 s.length
  have h2 := strBytes_length s
  simp only [encStr, List.length_append]
  omega

theorem encStr_length_ge (s : String) : s.length ≤ (encStr s).length := by
  have h2 := strBytes_length s
  simp only [encStr, List.length_append]
  omega

theorem expectStr_encStr (tag : String) (rest : List Nat)
    (h : tag.length < 18446744073709551616) :
    expectStr tag (encStr tag ++ rest) = some rest := by
  simp [expectStr, decStr_encStr tag rest h]

theorem decClientId_encClientId (c : ClientId) (rest : List Nat) (hc : c.wf) :
    decClientId (encClientId c ++ rest) = some (c, rest) := by
  obtain ⟨h1, h2⟩ := hc
  simp only [decClientId, encClientId, List.append_assoc]
  rw [decHead_encHead 5 2 _ (by omega)]
  simp only [Option.bind_eq_bind, Option.some_bind, and_self, if_pos (⟨rfl, rfl⟩ : 5 = 5 ∧ 2 = 2)]
  rw [expectStr_encStr "name" _ (by decide)]
  simp only [Option.some_bind]
  rw [decStr_encStr c.name _ (by unfold strWf at h1; omega)]
  simp only [Option.some_bind]
  rw [expectStr_encStr "addr" _ (by decide)]
  simp only [Option.some_bind]
  rw [decStr_encStr c.addr _ (by unfold strWf at h2; omega)]
  simp only [Option.some_bind]
  rfl

theorem decClientIdList_encClientIdList (cs : List ClientId) (rest : List Nat)
    (hcs : ∀ c ∈ cs, c.wf) :
    decClientIdList cs.length (encClientIdList cs ++ rest) = some (cs, rest) := by
  induction cs with
  | nil => rfl
  | cons c cs ih =>
    simp only [encClientIdList, List.length_cons, decClientIdList, List.append_assoc]
    rw [decClientId_encClientId c _ (hcs c (by simp))]
    simp only [Option.bind_eq_bind, Option.some_bind]
    rw [ih (fun x hx => hcs x (by simp [hx]))]
    simp only [Option.some_bind]

theorem decClientMessage_encClientMessage (m : ClientMessage) (rest : List Nat)
    (hm : m.wf) :
    decClientMessage (encClientMessage m ++ rest) = some (m, rest) := by
  cases m with
  | joinRequest name =>
    unfold ClientMessage.wf strWf at hm
    simp only [decClientMessage, encClientMessage, List.append_assoc]
    rw [decHead_encHead 5 1 _ (by omega)]
    simp only [Option.bind_eq_bind, Option.some_bind, and_self, if_true]
    rw [decStr_encStr "JoinRequest" _ (by decide)]
    simp only [Option.some_bind]
    rw [decHead_encHead 5 1 _ (by omega)]
    simp only [Option.some_bind, and_self, if_true, if_false]
    rw [expectStr_encStr "name" _ (by decide)]
    simp only [Option.some_bind]
    rw [decStr_encStr name _ (by omega)]
    simp only [Option.some_bind]
  | sendMessage message =>
    unfold ClientMessage.wf strWf at hm
    simp only [decClientMessage, encClientMessage, List.append_assoc]
    rw [decHead_encHead 5 1 _ (by omega)]
    simp only [Option.bind_eq_bind, Option.some_bind, and_self, if_true]
    rw [decStr_encStr "SendMessage" _ (by decide)]
    simp only [Option.some_bind]
    rw [decHead_encHead 5 1 _ (by omega)]
    simp only [Option.some_bind, and_self, if_true, if_false]
    rw [expectStr_encStr "message" _ (by decide)]
    simp only [Option.some_bind]
    rw [decStr_encStr message _ (by omega)]
    simp only [Option.some_bind]
    rw [if_neg (by decide)]

theorem decServerMessage_encServerMessage (m : ServerMessage) (rest : List Nat)
    (hm : m.wf) :
    decServerMessage (encServerMessage m ++ rest) = some (m, rest) := by
  cases m with
  | acceptJoin =>
    simp only [decServerMessage, encServerMessage, encStr, List.append_assoc]
    rw [decHead_encHead 3 _ _ (by decide)]
    simp only [Option.bind_eq_bind, Option.some_bind, if_true, if_false]
    rw [← strBytes_length "AcceptJoin", splitN_append]
    simp only [Option.some_bind]
    rw [if_pos (by decide)]
  | receiveMessage sender message =>
    obtain ⟨hsender, hmsg⟩ := hm
    unfold strWf at hmsg
    simp only [decServerMessage, encServerMessage, List.append_assoc]
    rw [decHead_encHead 5 1 _ (by omega)]
    simp only [Option.bind_eq_bind, Option.some_bind]
    norm_num
    rw [decStr_encStr "ReceiveMessage" _ (by decide)]
    simp only [Option.some_bind]
    rw [if_pos trivial]
    rw [decHead_encHead 5 2 _ (by omega)]
    simp only [Option.some_bind]
    norm_num
    rw [expectStr_encStr "sender" _ (by decide)]
    simp only [Option.some_bind]
    rw [decClientId_encClientId sender _ hsender]
    simp only [Option.some_bind]
    rw [expectStr_encStr "message" _ (by decide)]
    simp only [Option.some_bind]
    rw [decStr_encStr message _ (by omega)]
    simp only [Option.some_bind]
  | clientListUpdate clients =>
    obtain ⟨hlen, hcs⟩ := hm
    simp only [decServerMessage, encServerMessage, List.append_assoc]
    rw [decHead_encHead 5 1 _ (by omega)]
    simp only [Option.bind_eq_bind, Option.some_bind]
    norm_num
    rw [decStr_encStr "ClientListUpdate" _ (by decide)]
    simp only [Option.some_bind]
    rw [if_neg (by decide), if_pos (by decide)]
    rw [decHead_encHead 5 1 _ (by omega)]
    simp only [Option.some_bind]
    norm_num
    rw [expectStr_encStr "clients" _ (by decide)]
    simp only [Option.some_bind]
    rw [decHead_encHead 4 clients.length _ (by omega)]
    simp only [Option.some_bind]
    norm_num
    rw [decClientIdList_encClientIdList clients rest hcs]
    simp only [Option.some_bind]

theorem lz4ReadLen_lenExt (n : Nat) (rest : List Nat) :
    lz4ReadLen (lz4LenExt n ++ rest) = some (n, rest) := by
  induction n using Nat.strong_induction_on with
  | _ n ih =>
    rw [lz4LenExt]
    split
    · next h =>
      simp only [List.cons_append, List.nil_append, lz4ReadLen]
      rw [if_neg (by omega)]
      rfl
    · next h =>
      rw [List.cons_append, lz4ReadLen]
      rw [if_pos rfl]
      rw [ih (n - 255) (by omega)]
      have e : 255 + (n - 255) = n := by omega
      simp [e]

theorem lz4LenExt_length_le (n : Nat) : (lz4LenExt n).length ≤ n / 255 + 1 := by
  induction n using Nat.strong_induction_on with
  | _ n ih =>
    rw [lz4LenExt]
    split
    · simp
    · next h =>
      have := ih (n - 255) (by omega)
      simp only [List.length_cons]
      omega

theorem lz4DecompressBlock_lz4CompressBlock (b : List Nat) :
    lz4DecompressBlock (lz4CompressBlock b) = some b := by
  unfold lz4CompressBlock
  split
  · next h =>
    simp only [lz4DecompressBlock]
    have e1 : 16 * b.length / 16 = b.length := by omega
    rw [e1, if_pos h]
    have : splitN b.length b = some (b, []) := by
      have := splitN_append b ([] : List Nat)
      simpa using this
    rw [this]
  · next h =>
    simp only [lz4DecompressBlock]
    have e1 : (240 : Nat) / 16 = 15 := by norm_num
    rw [e1, if_neg (by omega)]
    rw [lz4ReadLen_lenExt (b.length - 15) b]
    simp only []
    have e2 : 15 + (b.length - 15) = b.length := by omega
    rw [e2]
    have hsp : splitN b.length b = some (b, []) := by
      have := splitN_append b ([] : List Nat)
      simpa using this
    rw [hsp]

theorem lz4Decompress_lz4Compress (b : List Nat) (h : b.length < 4294967296) :
    lz4Decompress (lz4Compress b) = some b := by
  unfold lz4Decompress lz4Compress
  rw [readLE32_le32 b.length _ h]
  simp only [Option.bind_eq_bind, Option.some_bind]
  rw [lz4DecompressBlock_lz4CompressBlock b]
  simp only [Option.some_bind, if_pos rfl, if_true]

theorem lz4Compress_length_le (b : List Nat) :
    (lz4Compress b).length ≤ 2 * b.length + 6 := by
  have hext := lz4LenExt_length_le (b.length - 15)
  unfold lz4Compress lz4CompressBlock le32
  split
  · simp only [List.length_append, List.length_cons]
    simp only [List.length_cons, List.length_nil]
    omega
  · simp only [List.length_append, List.length_cons]
    simp only [List.length_cons, List.length_nil, List.length_append]
    omega

theorem frameDecode_frameEncode (p rest : List Nat) (h : p.length < 4294967296) :
    frameDecode (frameEncode p ++ rest) = some (p, rest) := by
  unfold frameDecode frameEncode
  rw [List.append_assoc, readBE32_be32 p.length _ h]
  simp only [Option.bind_eq_bind, Option.some_bind]
  exact splitN_append p rest

theorem frameDecode_frameEncode_nil (p : List Nat) (h : p.length < 4294967296) :
    frameDecode (frameEncode p) = some (p, []) := by
  have := frameDecode_frameEncode p [] h
  simpa using this

theorem encClientId_length_lt (c : ClientId) (hc : c.wf) :
    (encClientId c).length < 262144 := by
  obtain ⟨h1, h2⟩ := hc
  unfold strWf at h1 h2
  have b1 := encHead_length_le 5 2
  have b2 := encStr_length_le "name"
  have b3 := encStr_length_le c.name
  have b4 := encStr_length_le "addr"
  have b5 := encStr_length_le c.addr
  have e1 : ("name" : String).length = 4 := by decide
  have e2 : ("addr" : String).length = 4 := by decide
  simp only [encClientId, List.length_append]
  omega

theorem encClientIdList_length_le (cs : List ClientId) (hcs : ∀ c ∈ cs, c.wf) :
    (encClientIdList cs).length ≤ cs.length * 262144 := by
  induction cs with
  | nil => simp [encClientIdList]
  | cons c cs ih =>
    have hc := encClientId_length_lt c (hcs c (by simp))
    have ihh := ih (fun x hx => hcs x (by simp [hx]))
    simp only [encClientIdList, List.length_append, List.length_cons]
    have : (cs.length + 1) * 262144 = cs.length * 262144 + 262144 := by ring
    omega

theorem encClientMessage_length_lt (m : ClientMessage) (hm : m.wf) :
    (encClientMessage m).length < 131072 := by
  cases m with
  | joinRequest name =>
    unfold ClientMessage.wf strWf at hm
    have b1 := encHead_length_le 5 1
    have b2 := encStr_length_le "JoinRequest"
    have b3 := encStr_length_le "name"
    have b4 := encStr_length_le name
    have e1 : ("JoinRequest" : String).length = 11 := by decide
    have e2 : ("name" : String).length = 4 := by decide
    simp only [encClientMessage, List.length_append]
    omega
  | sendMessage message =>
    unfold ClientMessage.wf strWf at hm
    have b1 := encHead_length_le 5 1
    have b2 := encStr_length_le "SendMessage"
    have b3 := encStr_length_le "message"
    have b4 := encStr_length_le message
    have e1 : ("SendMessage" : String).length = 11 := by decide
    have e2 : ("message" : String).length = 7 := by decide
    simp only [encClientMessage, List.length_append]
    omega

theorem encServerMessage_length_lt (m : ServerMessage) (hm : m.wf) :
    (encServerMessage m).length < 134217728 := by
  cases m with
  | acceptJoin =>
    have b1 := encStr_length_le "AcceptJoin"
    have e1 : ("AcceptJoin" : String).length = 10 := by decide
    simp only [encServerMessage]
    omega
  | receiveMessage sender message =>
    obtain ⟨hsender, hmsg⟩ := hm
    unfold strWf at hmsg
    have b1 := encHead_length_le 5 1
    have b2 := encHead_length_le 5 2
    have b3 := encStr_length_le "ReceiveMessage"
    have b4 := encStr_length_le "sender"
    have b5 := encStr_length_le "message"
    have b6 := encStr_length_le message
    have b7 := encClientId_length_lt sender hsender
    have e1 : ("ReceiveMessage" : String).length = 14 := by decide
    have e2 : ("sender" : String).length = 6 := by decide
    have e3 : ("message" : String).length = 7 := by decide
    simp only [encServerMessage, List.length_append]
    omega
  | clientListUpdate clients =>
    obtain ⟨hlen, hcs⟩ := hm
    have b1 := encHead_length_le 5 1
    have b2 := encStr_length_le "ClientListUpdate"
    have b3 := encStr_length_le "clients"
    have b4 := encHead_length_le 4 clients.length
    have b5 := encClientIdList_length_le clients hcs
    have e1 : ("ClientListUpdate" : String).length = 16 := by decide
    have e2 : ("clients" : String).length = 7 := by decide
    have hprod : clients.length * 262144 ≤ 255 * 262144 :=
      Nat.mul_le_mul_right 262144 (by omega)
    simp only [encServerMessage, List.length_append]
    omega

theorem compressedRecvClient_roundtrip (m : ClientMessage) (hm : m.wf) :
    compressedRecvClient (compressedSendClient m) = some (m, []) := by
  have hsmall := encClientMessage_length_lt m hm
  have hlen1 : (encClientMessage m).length < 4294967296 := by omega
  have hlen2 : (lz4Compress (encClientMessage m)).length < 4294967296 := by
    have := lz4Compress_length_le (encClientMessage m)
    omega
  unfold compressedRecvClient compressedSendClient
  rw [frameDecode_frameEncode_nil _ hlen2]
  simp only [Option.bind_eq_bind, Option.some_bind]
  rw [lz4Decompress_lz4Compress _ hlen1]
  simp only [Option.some_bind]
  unfold fromSliceClientMessage
  have hdec : decClientMessage (encClientMessage m) = some (m, []) := by
    have := decClientMessage_encClientMessage m [] hm
    simpa using this
  rw [hdec]
  rfl

theorem plainRecvClient_roundtrip (m : ClientMessage) (hm : m.wf) :
    plainRecvClient (plainSendClient m) = some (m, []) := by
  have hlen1 : (encClientMessage m).length < 4294967296 := by
    have := encClientMessage_length_lt m hm
    omega
  unfold plainRecvClient plainSendClient
  rw [frameDecode_frameEncode_nil _ hlen1]
  simp only [Option.bind_eq_bind, Option.some_bind]
  unfold fromSliceClientMessage
  have hdec : decClientMessage (encClientMessage m) = some (m, []) := by
    have := decClientMessage_encClientMessage m [] hm
    simpa using this
  rw [hdec]
  rfl

theorem compressedRecvServer_roundtrip (m : ServerMessage) (hm : m.wf) :
    compressedRecvServer (compressedSendServer m) = some (m, []) := by
  have hsmall := encServerMessage_length_lt m hm
  have hlen1 : (encServerMessage m).length < 4294967296 := by omega
  have hlen2 : (lz4Compress (encServerMessage m)).length < 4294967296 := by
    have := lz4Compress_length_le (encServerMessage m)
    omega
  unfold compressedRecvServer compressedSendServer
  rw [frameDecode_frameEncode_nil _ hlen2]
  simp only [Option.bind_eq_bind, Option.some_bind]
  rw [lz4Decompress_lz4Compress _ hlen1]
  simp only [Option.some_bind]
  unfold fromSliceServerMessage
  have hdec : decServerMessage (encServerMessage m) = some (m, []) := by
    have := decServerMessage_encServerMessage m [] hm
    simpa using this
  rw [hdec]
  rfl

theorem plainRecvServer_roundtrip (m : ServerMessage) (hm : m.wf) :
    plainRecvServer (plainSendServer m) = some (m, []) := by
  have hlen1 : (encServerMessage m).length < 4294967296 := by
    have := encServerMessage_length_lt m hm
    omega
  unfold plainRecvServer plainSendServer
  rw [frameDecode_frameEncode_nil _ hlen1]
  simp only [Option.bind_eq_bind, Option.some_bind]
  unfold fromSliceServerMessage
  have hdec : decServerMessage (encServerMessage m) = some (m, []) := by
    have := decServerMessage_encServerMessage m [] hm
    simpa using this
  rw [hdec]
  rfl

/-- C1: for every valid record R, encoding R through the compressed record
codec (CBOR-serialize, then lz4 block-compress, then length-prefix) and
decoding the resulting frame (decompress, then CBOR-deserialize) reproduces
R bit-for-bit, and the same round-trip holds for the uncompressed codec —
for both the client-to-server and the server-to-client record types. -/
theorem codec_roundtrip_all_records :
    (∀ m : ClientMessage, m.wf →
        compressedRecvClient (compressedSendClient m) = some (m, []) ∧
        plainRecvClient (plainSendClient m) = some (m, [])) ∧
    (∀ m : ServerMessage, m.wf →
        compressedRecvServer (compressedSendServer m) = some (m, []) ∧
        plainRecvServer (plainSendServer m) = some (m, [])) := by
  refine ⟨fun m hm => ⟨?_, ?_⟩, fun m hm => ⟨?_, ?_⟩⟩
  · exact compressedRecvClient_roundtrip m hm
  · exact plainRecvClient_roundtrip m hm
  · exact compressedRecvServer_roundtrip m hm
  · exact plainRecvServer_roundtrip m hm

/-- Witness for C1: the round-trips evaluated at concrete records. -/
theorem codec_roundtrip_all_records_witness :
    compressedRecvClient (compressedSendClient (.joinRequest "alice")) =
      some (.joinRequest "alice", []) ∧
    plainRecvServer
        (plainSendServer (.clientListUpdate [⟨"alice", "127.0.0.1:5001"⟩])) =
      some (.clientListUpdate [⟨"alice", "127.0.0.1:5001"⟩], []) :=
  ⟨(codec_roundtrip_all_records.1 (.joinRequest "alice") (by decide)).1,
   (codec_roundtrip_all_records.2
      (.clientListUpdate [⟨"alice", "127.0.0.1:5001"⟩]) (by decide)).2⟩

theorem dh_pow_pow (x y : Nat) :
    (dhGenerator ^ x % dhModulus) ^ y % dhModulus = dhGenerator ^ (x * y) % dhModulus := by
  rw [← Nat.pow_mod, ← pow_mul]

/-- C2: two peers that exchange public keys and combine them with their own
ephemeral secrets obtain the same Diffie-Hellman shared secret, hence — for
any key-derivation function — identical 32-byte symmetric keys; the raw
shared secret enters the key derivation only as the KDF's input keying
material together with the fixed context string, never directly as the
encryption key. -/
theorem handshake_key_agreement (kdf : List Nat → List Nat → Nat → Nat) (a b : Nat) :
    derivedKey kdf a (dhPublicKey b) = derivedKey kdf b (dhPublicKey a) ∧
    (derivedKey kdf a (dhPublicKey b)).length = 32 ∧
    derivedKey kdf a (dhPublicKey b) =
      (List.range 32).map
        (kdf (rawSecretBytes (diffieHellman a (dhPublicKey b))) handshakeContext) := by
  refine ⟨?_, by simp [derivedKey], rfl⟩
  unfold derivedKey diffieHellman dhPublicKey
  rw [dh_pow_pow b a, dh_pow_pow a b, Nat.mul_comm]

/-- C8 counterexample: on an established channel a `Handshake` envelope does
not surface as the `AlreadyHandshaked` error variant of the stream's typed
error — secure.rs lines 106–113 wrap the `AlreadyHandshaked` value in
`io::Error::other`, which converts back through the `Io` variant. -/
theorem handshake_after_established_io_wrapped :
    securePollNext 1 (.handshake 5) =
      .error (.io (.otherAlreadyHandshaked (.handshake 5))) ∧
    recvIsAlreadyHandshaked (securePollNext 1 (.handshake 5)) = false :=
  ⟨rfl, rfl⟩

/-- C8 amended: on an established channel an `Encrypted` envelope whose
ciphertext fails AEAD authentication yields the typed error
`FailedDecryption` carrying the offending ciphertext bytes; every incoming
envelope yields a value (ok or error), never a panic; and a `Handshake`
envelope received after establishment is rejected rather than processed,
with the `AlreadyHandshaked` payload wrapped inside the `Io` error variant
via `io::Error::other`. -/
theorem established_recv_error_behaviour :
    (∀ key data nonce, aeadDecrypt key nonce data = none →
      securePollNext key (.encrypted data nonce) = .error (.failedDecryption data)) ∧
    (∀ key pk, securePollNext key (.handshake pk) =
      .error (.io (.otherAlreadyHandshaked (.handshake pk)))) ∧
    (∀ key msg, (∃ m, securePollNext key msg = .ok m) ∨
      (∃ e, securePollNext key msg = .error e)) := by
  refine ⟨fun key data nonce h => ?_, fun key pk => rfl, fun key msg => ?_⟩
  · simp [securePollNext, h]
  · cases hmsg : securePollNext key msg with
    | ok m => exact .inl ⟨m, rfl⟩
    | error e => exact .inr ⟨e, rfl⟩

/-- Witness for the C8 amended theorem: a concrete unauthenticated
ciphertext surfaces as `FailedDecryption` carrying those bytes. -/
theorem established_recv_error_behaviour_witness :
    securePollNext 0 (.encrypted [0] []) = .error (.failedDecryption [0]) :=
  established_recv_error_behaviour.1 0 [0] [] (by decide)

theorem fromSlice_encClientMessage (m : ClientMessage) (hm : m.wf) :
    fromSliceClientMessage (encClientMessage m) = some m := by
  unfold fromSliceClientMessage
  have hdec : decClientMessage (encClientMessage m) = some (m, []) := by
    have := decClientMessage_encClientMessage m [] hm
    simpa using this
  rw [hdec]

/-- C3: evaluation of the divergence — the server handler (which frames with
`split_message_stream` and never constructs a `SecureStream`) accepts a
plaintext CBOR `JoinRequest` as the very first frame of a connection and
answers it with `AcceptJoin`: application records are exchanged with no
handshake frames and no encryption. -/
theorem plaintext_join_accepted (reg : Registry) (tok : Nat) (addr name : String)
    (hname : strWf name) (rest : List ReadItem) :
    preJoinLoop reg tok addr (.ok (encClientMessage (.joinRequest name)) :: rest) =
      (regInsert reg ⟨name, addr⟩ tok,
        [.insert ⟨name, addr⟩, .sendAccept ⟨name, addr⟩],
        some (⟨name, addr⟩, rest)) := by
  have hdec : fromSliceClientMessage (encClientMessage (.joinRequest name)) =
      some (.joinRequest name) :=
    fromSlice_encClientMessage (.joinRequest name) (by simpa [ClientMessage.wf] using hname)
  simp only [preJoinLoop, hdec]

/-- C3: the divergence evaluated at a concrete connection — the very first
frame, a plaintext CBOR `JoinRequest`, is deserialized and answered with
`AcceptJoin`; no handshake frame and no `Encrypted` envelope is involved
anywhere in the server handler. -/
theorem server_handles_plaintext_join :
    preJoinLoop [] 0 "127.0.0.1:5001"
        [.ok (encClientMessage (.joinRequest "alice"))] =
      (regInsert [] ⟨"alice", "127.0.0.1:5001"⟩ 0,
        [.insert ⟨"alice", "127.0.0.1:5001"⟩, .sendAccept ⟨"alice", "127.0.0.1:5001"⟩],
        some (⟨"alice", "127.0.0.1:5001"⟩, [])) :=
  plaintext_join_accepted [] 0 "127.0.0.1:5001" "alice" (by decide) []

/-- C4 counterexample: a joined connection whose stream yields a frame that
fails deserialization (`[255]` is no CBOR `ClientMessage`) followed by a
valid `SendMessage` still processes the later message — the decode failure
is logged and skipped, it does not end the read loop. -/
theorem joined_loop_survives_decode_error :
    joinedLoop ⟨"alice", "127.0.0.1:5001"⟩
        [.ok [255], .ok (encClientMessage (.sendMessage "hi"))] =
      [.logError,
        .spawnBroadcast
          (encServerMessage (.receiveMessage ⟨"alice", "127.0.0.1:5001"⟩ "hi")),
        .logError] := by
  have hdec : fromSliceClientMessage (encClientMessage (.sendMessage "hi")) =
      some (.sendMessage "hi") :=
    fromSlice_encClientMessage (.sendMessage "hi") (by decide)
  have hbad : fromSliceClientMessage [255] = none := by decide
  simp only [joinedLoop, hdec, hbad]

/-- C4 amended: the joined read loop ends exactly when the stream closes —
it emits one action per incoming item and the closing log entry, and an I/O
error or a deserialization failure on an incoming frame is logged and
skipped rather than terminating the loop. -/
theorem joined_loop_exit_behaviour :
    (∀ id : ClientId, joinedLoop id [] = [.logError]) ∧
    (∀ (id : ClientId) (rest : List ReadItem),
      joinedLoop id (.ioErr :: rest) = .logError :: joinedLoop id rest) ∧
    (∀ (id : ClientId) (bytes : List Nat) (rest : List ReadItem),
      fromSliceClientMessage bytes = none →
      joinedLoop id (.ok bytes :: rest) = .logError :: joinedLoop id rest) ∧
    (∀ (id : ClientId) (items : List ReadItem),
      (joinedLoop id items).length = items.length + 1) := by
  refine ⟨fun id => rfl, fun id rest => rfl, fun id bytes rest h => ?_, fun id items => ?_⟩
  · simp only [joinedLoop, h]
  · induction items with
    | nil => rfl
    | cons item rest ih =>
      cases item with
      | ioErr => simp [joinedLoop, ih]
      | ok bytes =>
        simp only [joinedLoop]
        cases hdec : fromSliceClientMessage bytes with
        | none => simp [ih]
        | some m => cases m <;> simp [ih]

/-- Witness for the C4 amended theorem: a concrete undecodable frame is
skipped. -/
theorem joined_loop_exit_behaviour_witness :
    joinedLoop ⟨"alice", "127.0.0.1:5001"⟩ [.ok [255]] =
      .logError :: joinedLoop ⟨"alice", "127.0.0.1:5001"⟩ [] :=
  joined_loop_exit_behaviour.2.2.1 ⟨"alice", "127.0.0.1:5001"⟩ [255] [] (by decide)

theorem preJoinLoop_no_remove (reg : Registry) (tok : Nat) (addr : String)
    (items : List ReadItem) :
    ((preJoinLoop reg tok addr items).2.1).countP SrvAction.isRemove = 0 := by
  induction items with
  | nil => rfl
  | cons item rest ih =>
    cases item with
    | ioErr => rfl
    | ok bytes =>
      simp only [preJoinLoop]
      cases hdec : fromSliceClientMessage bytes with
      | none => rfl
      | some m =>
        cases m with
        | joinRequest name => simp [List.countP_cons, SrvAction.isRemove]
        | sendMessage message => simp [List.countP_cons, SrvAction.isRemove, ih]

theorem joinedLoop_no_remove (id : ClientId) (items : List ReadItem) :
    (joinedLoop id items).countP SrvAction.isRemove = 0 := by
  induction items with
  | nil => rfl
  | cons item rest ih =>
    cases item with
    | ioErr => simp [joinedLoop, List.countP_cons, SrvAction.isRemove, ih]
    | ok bytes =>
      simp only [joinedLoop]
      cases hdec : fromSliceClientMessage bytes with
      | none => simp [List.countP_cons, SrvAction.isRemove, ih]
      | some m =>
        cases m <;> simp [List.countP_cons, SrvAction.isRemove, ih]

/-- C5: for every connection that successfully joins, the handler performs
exactly one removal on exit — of the joined identity — and it is followed
by exactly one spawned `ClientListUpdate` broadcast whose client list is
the registry key set after the removal, as the final two actions of the
handler, whatever the rest of the stream contained. -/
theorem joined_exit_single_cleanup (reg : Registry) (tok : Nat) (addr : String)
    (items rest : List ReadItem) (id : ClientId) (reg1 : Registry)
    (acts : List SrvAction)
    (hjoin : preJoinLoop reg tok addr items = (reg1, acts, some (id, rest))) :
    (handleNewConnection reg tok addr items).2 =
      acts ++ [.spawnBroadcast (encServerMessage (.clientListUpdate (regKeys reg1)))] ++
        joinedLoop id rest ++
        [.remove id,
          .spawnBroadcast
            (encServerMessage (.clientListUpdate (regKeys (regRemove reg1 id))))] ∧
    ((handleNewConnection reg tok addr items).2).countP SrvAction.isRemove = 1 ∧
    (handleNewConnection reg tok addr items).1 = regRemove reg1 id := by
  have hpre := preJoinLoop_no_remove reg tok addr items
  rw [hjoin] at hpre
  have hloop := joinedLoop_no_remove id rest
  unfold handleNewConnection
  rw [hjoin]
  refine ⟨rfl, ?_, rfl⟩
  simp only [List.countP_append, List.countP_cons, List.countP_nil]
  simp only [SrvAction.isRemove] at hpre hloop ⊢
  simp [hpre, hloop]

/-- Witness for C5 at a concrete joining connection. -/
theorem joined_exit_single_cleanup_witness :
    ((handleNewConnection [] 0 "127.0.0.1:5001"
        [.ok (encClientMessage (.joinRequest "alice"))]).2).countP
      SrvAction.isRemove = 1 :=
  (joined_exit_single_cleanup [] 0 "127.0.0.1:5001"
    [.ok (encClientMessage (.joinRequest "alice"))] []
    ⟨"alice", "127.0.0.1:5001"⟩ (regInsert [] ⟨"alice", "127.0.0.1:5001"⟩ 0)
    [.insert ⟨"alice", "127.0.0.1:5001"⟩, .sendAccept ⟨"alice", "127.0.0.1:5001"⟩]
    (by decide)).2.1

/-- C6: against a registry of N clients, a `SendMessage` from a joined
client produces exactly N delivery attempts — one per registered client in
registry order, including the sender whenever the sender is registered —
each carrying `ReceiveMessage` with the sender's identity and the original
message text; which attempts are made (recipients and payloads) does not
depend on which sends fail; and the joined loop spawns exactly this
broadcast payload for an incoming `SendMessage` frame. -/
theorem sendmessage_fanout (reg : Registry) (sendOk sendOk2 : ClientId → Bool)
    (sender : ClientId) (message : String) :
    (sendMessageDeliveries reg sendOk sender message).length = reg.length ∧
    (∀ a ∈ sendMessageDeliveries reg sendOk sender message,
      a.payload = encServerMessage (.receiveMessage sender message)) ∧
    (sendMessageDeliveries reg sendOk sender message).map (fun a => a.recipient) =
      regKeys reg ∧
    (sender ∈ regKeys reg →
      sender ∈ (sendMessageDeliveries reg sendOk sender message).map
        (fun a => a.recipient)) ∧
    (sendMessageDeliveries reg sendOk sender message).map
        (fun a => (a.recipient, a.payload)) =
      (sendMessageDeliveries reg sendOk2 sender message).map
        (fun a => (a.recipient, a.payload)) ∧
    (∀ rest : List ReadItem, strWf message →
      joinedLoop sender (.ok (encClientMessage (.sendMessage message)) :: rest) =
        .spawnBroadcast (encServerMessage (.receiveMessage sender message)) ::
          joinedLoop sender rest) := by
  have hmap : (sendMessageDeliveries reg sendOk sender message).map
      (fun a => a.recipient) = regKeys reg := by
    simp [sendMessageDeliveries, broadcast, regKeys, List.map_map, Function.comp_def]
  refine ⟨?_, ?_, hmap, ?_, ?_, ?_⟩
  · simp [sendMessageDeliveries, broadcast]
  · intro a ha
    simp only [sendMessageDeliveries, broadcast, List.mem_map] at ha
    obtain ⟨p, hp, rfl⟩ := ha
    rfl
  · intro h
    rw [hmap]
    exact h
  · simp [sendMessageDeliveries, broadcast, List.map_map, Function.comp_def]
  · intro rest hmsg
    have hdec : fromSliceClientMessage (encClientMessage (.sendMessage message)) =
        some (.sendMessage message) :=
      fromSlice_encClientMessage (.sendMessage message)
        (by simpa [ClientMessage.wf] using hmsg)
    simp only [joinedLoop, hdec]

/-- Witness for C6 at a concrete two-client registry (every send failing):
both attempts are still made and the sender is among the recipients. -/
theorem sendmessage_fanout_witness :
    ClientId.mk "alice" "a" ∈
      (sendMessageDeliveries [(⟨"alice", "a"⟩, 0), (⟨"bob", "b"⟩, 1)]
          (fun _ => false) ⟨"alice", "a"⟩ "hi").map (fun a => a.recipient) ∧
    joinedLoop ⟨"alice", "a"⟩ [.ok (encClientMessage (.sendMessage "hi"))] =
      .spawnBroadcast (encServerMessage (.receiveMessage ⟨"alice", "a"⟩ "hi")) ::
        joinedLoop ⟨"alice", "a"⟩ [] :=
  ⟨(sendmessage_fanout [(⟨"alice", "a"⟩, 0), (⟨"bob", "b"⟩, 1)] (fun _ => false)
      (fun _ => true) ⟨"alice", "a"⟩ "hi").2.2.2.1 (by decide),
    (sendmessage_fanout [(⟨"alice", "a"⟩, 0), (⟨"bob", "b"⟩, 1)] (fun _ => false)
      (fun _ => true) ⟨"alice", "a"⟩ "hi").2.2.2.2.2 [] (by decide)⟩

theorem regRemove_not_mem_keys (reg : Registry) (id : ClientId) :
    id ∉ regKeys (regRemove reg id) := by
  induction reg with
  | nil => simp [regRemove, regKeys]
  | cons p rest ih =>
    simp only [regRemove]
    split
    · exact ih
    · next h =>
      simp only [regKeys, List.map_cons, List.mem_cons]
      rintro (h1 | h2)
      · exact h h1.symm
      · exact ih h2

theorem regRemove_mem_keys (reg : Registry) (id x : ClientId) :
    x ∈ regKeys (regRemove reg id) ↔ x ∈ regKeys reg ∧ x ≠ id := by
  induction reg with
  | nil => simp [regRemove, regKeys]
  | cons p rest ih =>
    simp only [regRemove]
    split
    · next h =>
      rw [ih]
      simp only [regKeys, List.map_cons, List.mem_cons]
      subst h
      constructor
      · rintro ⟨hm, hne⟩
        exact ⟨.inr hm, hne⟩
      · rintro ⟨h1 | h2, hne⟩
        · exact absurd h1 hne
        · exact ⟨h2, hne⟩
    · next h =>
      have ih2 := ih
      simp only [regKeys, List.map_cons, List.mem_cons] at ih2 ⊢
      rw [ih2]
      constructor
      · rintro (h1 | ⟨hm, hne⟩)
        · subst h1
          exact ⟨.inl rfl, fun he => h he⟩
        · exact ⟨.inr hm, hne⟩
      · rintro ⟨h1 | h2, hne⟩
        · exact .inl h1
        · exact .inr ⟨h2, hne⟩

theorem regRemove_keys_sublist (reg : Registry) (id : ClientId) :
    (regKeys (regRemove reg id)).Sublist (regKeys reg) := by
  induction reg with
  | nil => simp [regRemove, regKeys]
  | cons p rest ih =>
    simp only [regRemove]
    split
    · exact ih.cons p.1
    · simpa [regKeys] using ih.cons₂ p.1

theorem regRemove_not_mem_eq (reg : Registry) (id : ClientId)
    (h : id ∉ regKeys reg) : regRemove reg id = reg := by
  induction reg with
  | nil => rfl
  | cons p rest ih =>
    simp only [regKeys, List.map_cons, List.mem_cons] at h
    push_neg at h
    simp only [regRemove]
    rw [if_neg (fun he => h.1 he.symm), ih h.2]

theorem regRemove_length_of_mem (reg : Registry) (id : ClientId)
    (hnd : (regKeys reg).Nodup) (hm : id ∈ regKeys reg) :
    (regRemove reg id).length + 1 = reg.length := by
  induction reg with
  | nil => simp [regKeys] at hm
  | cons p rest ih =>
    simp only [regKeys, List.map_cons, List.nodup_cons] at hnd
    simp only [regKeys, List.map_cons, List.mem_cons] at hm
    simp only [regRemove]
    split
    · next h =>
      subst h
      rw [regRemove_not_mem_eq rest p.1 hnd.1]
      simp
    · next h =>
      rcases hm with h1 | h2
      · exact absurd h1.symm h
      · simp only [List.length_cons]
        rw [← ih hnd.2 h2]

theorem regFind_append_of_not_mem (l1 l2 : Registry) (id : ClientId)
    (h : id ∉ regKeys l1) : regFind (l1 ++ l2) id = regFind l2 id := by
  induction l1 with
  | nil => rfl
  | cons p rest ih =>
    simp only [regKeys, List.map_cons, List.mem_cons] at h
    push_neg at h
    simp only [List.cons_append, regFind, List.append_eq]
    rw [if_neg (fun he => h.1 he.symm), ih h.2]

theorem regFind_regInsert (reg : Registry) (id : ClientId) (tok : Nat) :
    regFind (regInsert reg id tok) id = some tok := by
  unfold regInsert
  rw [regFind_append_of_not_mem _ _ _ (regRemove_not_mem_keys reg id)]
  simp [regFind]

theorem regInsert_keys_nodup (reg : Registry) (id : ClientId) (tok : Nat)
    (h : (regKeys reg).Nodup) : (regKeys (regInsert reg id tok)).Nodup := by
  unfold regInsert
  have hkeys : regKeys (regRemove reg id ++ [(id, tok)]) =
      regKeys (regRemove reg id) ++ [id] := by
    simp [regKeys]
  rw [hkeys]
  apply List.Nodup.append
  · exact h.sublist (regRemove_keys_sublist reg id)
  · simp
  · intro x hx hmem
    simp only [List.mem_singleton] at hmem
    subst hmem
    exact regRemove_not_mem_keys reg x hx

theorem regInsert_mem_keys (reg : Registry) (id : ClientId) (tok : Nat) (x : ClientId) :
    x ∈ regKeys (regInsert reg id tok) ↔ x = id ∨ x ∈ regKeys reg := by
  unfold regInsert
  have hkeys : regKeys (regRemove reg id ++ [(id, tok)]) =
      regKeys (regRemove reg id) ++ [id] := by
    simp [regKeys]
  rw [hkeys]
  simp only [List.mem_append, List.mem_singleton, regRemove_mem_keys]
  constructor
  · rintro (⟨hm, _⟩ | he)
    · exact .inr hm
    · exact .inl he
  · rintro (he | hm)
    · exact .inr he
    · by_cases hx : x = id
      · exact .inr hx
      · exact .inl ⟨hm, hx⟩

theorem regAfterJoins_go (joins : List (ClientId × Nat)) (acc : Registry)
    (hnd : (regKeys acc).Nodup) :
    (regKeys (joins.foldl (fun r p => regInsert r p.1 p.2) acc)).Nodup ∧
    (∀ x, x ∈ regKeys (joins.foldl (fun r p => regInsert r p.1 p.2) acc) ↔
      x ∈ regKeys acc ∨ x ∈ joins.map (fun p => p.1)) := by
  induction joins generalizing acc with
  | nil =>
    refine ⟨hnd, fun x => ?_⟩
    simp
  | cons j rest ih =>
    simp only [List.foldl_cons]
    obtain ⟨ihnd, ihmem⟩ := ih (regInsert acc j.1 j.2) (regInsert_keys_nodup acc j.1 j.2 hnd)
    refine ⟨ihnd, fun x => ?_⟩
    rw [ihmem x, regInsert_mem_keys]
    simp only [List.map_cons, List.mem_cons]
    constructor
    · rintro ((he | hm) | hr)
      · exact .inr (.inl he)
      · exact .inl hm
      · exact .inr (.inr hr)
    · rintro (hm | he | hr)
      · exact .inl (.inr hm)
      · exact .inl (.inl he)
      · exact .inr hr

/-- C7: inserting a record under an identity already present in the registry
replaces the prior entry — the lookup afterwards returns the newly inserted
record and, on a well-formed (duplicate-free) registry, the size does not
grow — so after any sequence of join insertions the registry size equals the
number of distinct name+address identities, not the number of join
attempts. -/
theorem registry_last_writer_wins :
    (∀ (reg : Registry) (id : ClientId) (tok : Nat),
      regFind (regInsert reg id tok) id = some tok) ∧
    (∀ (reg : Registry) (id : ClientId) (t1 t2 : Nat),
      regFind (regInsert (regInsert reg id t1) id t2) id = some t2) ∧
    (∀ (reg : Registry) (id : ClientId) (tok : Nat),
      (regKeys reg).Nodup → id ∈ regKeys reg →
      (regInsert reg id tok).length = reg.length) ∧
    (∀ joins : List (ClientId × Nat),
      (regAfterJoins joins).length = (joins.map (fun p => p.1)).toFinset.card) := by
  refine ⟨regFind_regInsert, fun reg id t1 t2 => regFind_regInsert _ id t2,
    fun reg id tok hnd hm => ?_, fun joins => ?_⟩
  · unfold regInsert
    simp only [List.length_append, List.length_cons, List.length_nil]
    have := regRemove_length_of_mem reg id hnd hm
    omega
  · obtain ⟨hnd, hmem⟩ := regAfterJoins_go joins [] (by simp [regKeys])
    have hnd2 : (regKeys (regAfterJoins joins)).Nodup := hnd
    have hmem2 : ∀ x, x ∈ regKeys (regAfterJoins joins) ↔
        x ∈ List.map (fun p => p.1) joins := by
      intro x
      have hx := hmem x
      simpa [regAfterJoins, regKeys] using hx
    have hkeyslen : (regKeys (regAfterJoins joins)).length = (regAfterJoins joins).length := by
      simp [regKeys]
    have hsame : (regKeys (regAfterJoins joins)).toFinset =
        (joins.map (fun p => p.1)).toFinset := by
      ext x
      simp only [List.mem_toFinset]
      rw [hmem2 x]
    calc (regAfterJoins joins).length
        = (regKeys (regAfterJoins joins)).length := hkeyslen.symm
      _ = (regKeys (regAfterJoins joins)).toFinset.card :=
          (List.toFinset_card_of_nodup hnd2).symm
      _ = (joins.map (fun p => p.1)).toFinset.card := by rw [hsame]

/-- Witness for C7: two joins under the same identity leave one entry
holding the second record. -/
theorem registry_last_writer_wins_witness :
    regFind (regInsert (regInsert [] ⟨"alice", "a"⟩ 1) ⟨"alice", "a"⟩ 2)
        ⟨"alice", "a"⟩ = some 2 ∧
    (regInsert (regInsert [] ⟨"alice", "a"⟩ 1) ⟨"alice", "a"⟩ 2).length =
      (regInsert [] ⟨"alice", "a"⟩ 1).length :=
  ⟨registry_last_writer_wins.2.1 [] ⟨"alice", "a"⟩ 1 2,
    registry_last_writer_wins.2.2.1 (regInsert [] ⟨"alice", "a"⟩ 1) ⟨"alice", "a"⟩ 2
      (by decide) (by decide)⟩

theorem acceptorRun_bound (maxConcurrency : Nat) (hK : 1 ≤ maxConcurrency) :
    ∀ (arrivals inflight : Nat), inflight ≤ maxConcurrency - 1 →
      ∀ p ∈ acceptorRun maxConcurrency arrivals inflight, p ≤ maxConcurrency := by
  intro arrivals
  induction arrivals with
  | zero =>
    intro inflight h p hp
    simp [acceptorRun] at hp
  | succ n ih =>
    intro inflight h p hp
    simp only [acceptorRun] at hp
    rw [if_neg (by omega)] at hp
    rcases List.mem_cons.mp hp with h1 | h2
    · omega
    · exact ih _ (by omega) p h2

/-- C9 amended: for every listener configured with `max_concurrency = K ≥ 1`,
the number of in-flight connection-handler tasks observed after any accept
never exceeds K — once K handlers are in flight the loop drains completed
handlers before accepting again.  (For K = 0 the bound fails: the first
connection is still accepted, see the counterexample.) -/
theorem acceptor_concurrency_bound (maxConcurrency arrivals : Nat)
    (hK : 1 ≤ maxConcurrency) :
    ∀ p ∈ acceptorPeaks maxConcurrency arrivals, p ≤ maxConcurrency :=
  acceptorRun_bound maxConcurrency hK arrivals 0 (by omega)

/-- Witness for the C9 amended theorem at `max_concurrency = 2` and three
arrivals. -/
theorem acceptor_concurrency_bound_witness :
    (2 : Nat) ∈ acceptorPeaks 2 3 ∧ (2 : Nat) ≤ 2 :=
  ⟨by decide, acceptor_concurrency_bound 2 3 (by decide) 2 (by decide)⟩

/-- C9 counterexample: a listener configured with `max_concurrency = 0`
still accepts its first connection and spawns its handler, so one handler is
in flight where the claim allows at most zero. -/
theorem acceptor_zero_concurrency_violated :
    acceptorPeaks 0 1 = [1] ∧ ¬(1 ≤ 0) :=
  ⟨rfl, by decide⟩

/-- C10: evaluation at the failing interleaving — when a stale handler for
the same identity executes its exit removal (server.rs line 210) between
this handler's insert (line 124) and its registry lookup (line 129), the
lookup returns `None` and the `.unwrap()` panics; without such interference
the lookup of the just-inserted record always succeeds, and serializing
`AcceptJoin` is total. -/
theorem insert_get_unwrap_reachable :
    lookupAfterInsert [] ⟨"alice", "127.0.0.1:5001"⟩ 1
        [.remove ⟨"alice", "127.0.0.1:5001"⟩] = none ∧
    lookupAfterInsert [] ⟨"alice", "127.0.0.1:5001"⟩ 1 [] = some 1 ∧
    (∀ (reg : Registry) (id : ClientId) (tok : Nat),
      lookupAfterInsert reg id tok [] = some tok) ∧
    encServerMessage .acceptJoin = encStr "AcceptJoin" := by
  refine ⟨by decide, by decide, ?_, rfl⟩
  intro reg id tok
  unfold lookupAfterInsert regRun
  simp only [List.foldl_nil]
  exact regFind_regInsert reg id tok

end TermChat
